import Mathlib

/-!
# Verification of the Marikina road-network / hospital-locations pipeline

Shallow embedding of the two scripts `MarikinaRoadNetwork.py` and
`HospitalLocations.py`.

* `MarikinaRoadNetwork.py` downloads a drivable road graph, reduces it to its
  largest strongly connected component (lines 16-25), and annotates every edge
  with a `travel_time` derived from `length` and `maxspeed` (lines 41-80).
* `HospitalLocations.py` parses hospital elements from an Overpass response
  (lines 35-41), snaps each hospital to the nearest graph node (lines 60-75),
  and validates connectivity of the snapped nodes (lines 87-93).

Numeric attribute values are embedded as exact rationals (`ℚ`); Python float
division by zero, which raises `ZeroDivisionError`, is embedded with `Except`.
The semantics of the `networkx` library calls used by the script
(`strongly_connected_components`, `is_strongly_connected`, `subgraph`) are
embedded by their documented mathematical meaning: strongly connected
components are the equivalence classes of mutual reachability,
`is_strongly_connected` raises `NetworkXPointlessConcept` on the null graph
and otherwise tests whether the first enumerated component spans all nodes,
and `subgraph S` is the induced subgraph on the node set `S`.
-/

namespace EMS

/-- Edge attribute `highway` as found in the data: absent, a single road-class
string, or a list of road-class strings (`data.get('highway', 'unclassified')`
and the `isinstance(highway, list)` branch of `MarikinaRoadNetwork.py`). -/
inductive Highway where
  | none : Highway
  | str (s : String) : Highway
  | list (l : List String) : Highway
deriving DecidableEq, Repr

/-- Edge attribute `maxspeed`: absent, a string, a list of strings, or a
number (`data.get('maxspeed')` and the `isinstance` dispatch of
`MarikinaRoadNetwork.py` lines 55-76).  Numeric values are embedded as exact
rationals. -/
inductive Maxspeed where
  | none : Maxspeed
  | str (s : String) : Maxspeed
  | list (l : List String) : Maxspeed
  | num (q : ℚ) : Maxspeed
deriving DecidableEq, Repr

/-- The edge-attribute dictionary of a road segment.  `length` is in meters
(absent keys are embedded as `Option.none`); `travel_time` is the derived
attribute written by the annotation loop, absent before annotation. -/
structure EdgeData where
  length : Option ℚ
  highway : Highway
  maxspeed : Maxspeed
  travel_time : Option ℚ
deriving DecidableEq, Repr

/-- One directed edge of the multigraph: source node, destination node and its
attribute dictionary.  Parallel edges are simply repeated entries in the edge
list (the Python `key` of a `MultiDiGraph` edge plays no role in the
scripts' logic). -/
structure Edge where
  src : Nat
  dst : Nat
  data : EdgeData
deriving DecidableEq, Repr

/-- A directed multigraph as `networkx` presents it to the script: an ordered
node list and an ordered edge list. -/
structure Graph where
  nodes : List Nat
  edges : List Edge
deriving DecidableEq, Repr

/-- Well-formedness facts `networkx` guarantees for any `MultiDiGraph`:
nodes are distinct and every edge endpoint is a node. -/
structure WF (G : Graph) : Prop where
  nodup : G.nodes.Nodup
  src_mem : ∀ e ∈ G.edges, e.src ∈ G.nodes
  dst_mem : ∀ e ∈ G.edges, e.dst ∈ G.nodes

/-- Successors of `u` in an edge list. -/
def succs (es : List Edge) (u : Nat) : List Nat :=
  es.filterMap (fun e => if e.src = u then some e.dst else none)

/-- Directed reachability: the reflexive-transitive closure of the edge
relation. -/
def Reaches (G : Graph) (u v : Nat) : Prop :=
  Relation.ReflTransGen (fun a b => b ∈ succs G.edges a) u v

/-- One breadth step of the reachability closure: a node set together with all
direct successors of its members. -/
def expandF (es : List Edge) (s : Finset Nat) : Finset Nat :=
  s ∪ s.biUnion (fun u => (succs es u).toFinset)

/-- Iterated breadth steps. -/
def iterF (es : List Edge) : Nat → Finset Nat → Finset Nat
  | 0, s => s
  | n + 1, s => iterF es n (expandF es s)

/-- The set of nodes reachable from `u`: `G.nodes.length` breadth steps
starting from `{u}` (enough to saturate, see `reachSet_fixed`). -/
def reachSet (G : Graph) (u : Nat) : Finset Nat :=
  iterF G.edges G.nodes.length {u}

/-- Executable reachability test. -/
def reachb (G : Graph) (u v : Nat) : Bool :=
  v ∈ reachSet G u

lemma mem_succs {es : List Edge} {u v : Nat} :
    v ∈ succs es u ↔ ∃ e ∈ es, e.src = u ∧ e.dst = v := by
  simp only [succs, List.mem_filterMap]
  constructor
  · rintro ⟨e, he, h⟩
    by_cases hs : e.src = u
    · simp only [hs, if_pos rfl] at h
      exact ⟨e, he, hs, by simpa using h⟩
    · simp [hs] at h
  · rintro ⟨e, he, hs, hd⟩
    exact ⟨e, he, by simp [hs, hd]⟩

lemma subset_expandF (es : List Edge) (s : Finset Nat) : s ⊆ expandF es s :=
  Finset.subset_union_left

lemma expandF_mono {es : List Edge} {s t : Finset Nat} (h : s ⊆ t) :
    expandF es s ⊆ expandF es t := by
  apply Finset.union_subset
  · exact h.trans Finset.subset_union_left
  · refine Finset.Subset.trans ?_ Finset.subset_union_right
    exact Finset.biUnion_subset_biUnion_of_subset_left _ h

lemma subset_iterF (es : List Edge) (n : Nat) (s : Finset Nat) :
    s ⊆ iterF es n s := by
  induction n generalizing s with
  | zero => exact Finset.Subset.refl s
  | succ n ih => exact (subset_expandF es s).trans (ih (expandF es s))

lemma iterF_mono {es : List Edge} (n : Nat) {s t : Finset Nat} (h : s ⊆ t) :
    iterF es n s ⊆ iterF es n t := by
  induction n generalizing s t with
  | zero => exact h
  | succ n ih => exact ih (expandF_mono h)

lemma iterF_add (es : List Edge) (m n : Nat) (s : Finset Nat) :
    iterF es (m + n) s = iterF es n (iterF es m s) := by
  induction m generalizing s with
  | zero => simp [iterF]
  | succ m ih =>
      have : m + 1 + n = (m + n) + 1 := by omega
      rw [this]
      show iterF es (m + n) (expandF es s) = _
      rw [ih (expandF es s)]
      rfl

lemma iterF_fixed {es : List Edge} {s : Finset Nat}
    (h : expandF es s = s) (n : Nat) : iterF es n s = s := by
  induction n with
  | zero => rfl
  | succ n ih =>
      show iterF es n (expandF es s) = s
      rw [h, ih]

/-- Everything added by a breadth step is one edge away from the input set. -/
lemma mem_expandF {es : List Edge} {s : Finset Nat} {v : Nat} :
    v ∈ expandF es s ↔ v ∈ s ∨ ∃ u ∈ s, v ∈ succs es u := by
  simp [expandF]

/-- Soundness: every node produced by the iteration is reachable from the
start set. -/
lemma iterF_sound {es : List Edge} (n : Nat) {s : Finset Nat} {v : Nat}
    (h : v ∈ iterF es n s) :
    ∃ u ∈ s, Relation.ReflTransGen (fun a b => b ∈ succs es a) u v := by
  induction n generalizing s with
  | zero => exact ⟨v, h, Relation.ReflTransGen.refl⟩
  | succ n ih =>
      obtain ⟨u, hu, hr⟩ := ih h
      rcases mem_expandF.mp hu with hu' | ⟨w, hw, hsucc⟩
      · exact ⟨u, hu', hr⟩
      · exact ⟨w, hw, Relation.ReflTransGen.head hsucc hr⟩

/-- A set fixed by `expandF` is closed under reachability. -/
lemma fixed_closed {es : List Edge} {s : Finset Nat}
    (hfix : expandF es s = s) {u v : Nat} (hu : u ∈ s)
    (h : Relation.ReflTransGen (fun a b => b ∈ succs es a) u v) : v ∈ s := by
  induction h with
  | refl => exact hu
  | tail _ hstep ih =>
      have : _ ∈ expandF es s := mem_expandF.mpr (Or.inr ⟨_, ih, hstep⟩)
      rwa [hfix] at this

lemma expandF_subset_of_wf {G : Graph} (hwf : WF G) {s : Finset Nat}
    (hs : s ⊆ G.nodes.toFinset) : expandF G.edges s ⊆ G.nodes.toFinset := by
  apply Finset.union_subset hs
  intro v hv
  simp only [Finset.mem_biUnion] at hv
  obtain ⟨u, _, hv⟩ := hv
  rw [List.mem_toFinset] at hv
  obtain ⟨e, he, _, hd⟩ := mem_succs.mp hv
  rw [List.mem_toFinset]
  exact hd ▸ hwf.dst_mem e he

lemma iterF_subset_of_wf {G : Graph} (hwf : WF G) (n : Nat) {s : Finset Nat}
    (hs : s ⊆ G.nodes.toFinset) : iterF G.edges n s ⊆ G.nodes.toFinset := by
  induction n generalizing s with
  | zero => exact hs
  | succ n ih => exact ih (expandF_subset_of_wf hwf hs)

/-- Saturation: after `G.nodes.length` steps the closure is a fixed point of
`expandF` (pigeonhole on the strictly increasing chain of subsets of the node
set). -/
lemma reachSet_fixed {G : Graph} (hwf : WF G) {u : Nat} (hu : u ∈ G.nodes) :
    expandF G.edges (reachSet G u) = reachSet G u := by
  set n := G.nodes.length with hn
  -- chain member i : iterF i {u}
  by_cases hstep : ∃ i < n, expandF G.edges (iterF G.edges i {u}) = iterF G.edges i {u}
  · obtain ⟨i, hin, hfix⟩ := hstep
    have hrest : reachSet G u = iterF G.edges i {u} := by
      have : n = i + (n - i) := by omega
      rw [reachSet, ← hn, this, iterF_add]
      exact iterF_fixed hfix (n - i)
    rw [hrest]
    exact hfix
  · -- every step below n is strict, so cardinalities outgrow the node set
    push_neg at hstep
    have hgrow : ∀ i ≤ n, i + 1 ≤ (iterF G.edges i {u}).card := by
      intro i
      induction i with
      | zero => intro _; simp [iterF]
      | succ i ih =>
          intro hin
          have hlt : i < n := by omega
          have hstep_eq : iterF G.edges (i + 1) {u} =
              expandF G.edges (iterF G.edges i {u}) := by
            rw [iterF_add G.edges i 1]
            rfl
          have hssub : iterF G.edges i {u} ⊂ iterF G.edges (i + 1) {u} := by
            rw [hstep_eq]
            exact Finset.ssubset_iff_subset_ne.mpr
              ⟨subset_expandF _ _, fun h => hstep i hlt h.symm⟩
          have := Finset.card_lt_card hssub
          have := ih (by omega)
          omega
    have hcard : n + 1 ≤ (iterF G.edges n {u}).card := hgrow n le_rfl
    have hsub : iterF G.edges n {u} ⊆ G.nodes.toFinset := by
      apply iterF_subset_of_wf hwf
      intro x hx
      simp only [Finset.mem_singleton] at hx
      rw [List.mem_toFinset]
      exact hx ▸ hu
    have hle := Finset.card_le_card hsub
    have : G.nodes.toFinset.card = n := by
      rw [hn, List.toFinset_card_of_nodup hwf.nodup]
    omega

/-- Completeness of the executable closure. -/
lemma reachSet_complete {G : Graph} (hwf : WF G) {u v : Nat}
    (hu : u ∈ G.nodes) (h : Reaches G u v) : v ∈ reachSet G u := by
  have hu' : u ∈ reachSet G u :=
    subset_iterF _ _ _ (Finset.mem_singleton_self u)
  exact fixed_closed (reachSet_fixed hwf hu) hu' h

/-- Soundness of the executable closure. -/
lemma reachSet_sound {G : Graph} {u v : Nat} (h : v ∈ reachSet G u) :
    Reaches G u v := by
  obtain ⟨w, hw, hr⟩ := iterF_sound _ h
  simp only [Finset.mem_singleton] at hw
  exact hw ▸ hr

/-- The executable reachability test agrees with the reflexive-transitive
closure, for start nodes of the graph. -/
lemma reachb_iff {G : Graph} (hwf : WF G) {u v : Nat} (hu : u ∈ G.nodes) :
    reachb G u v = true ↔ Reaches G u v := by
  constructor
  · intro h
    exact reachSet_sound (by simpa [reachb] using h)
  · intro h
    simpa [reachb] using reachSet_complete hwf hu h

/-! ## Strongly connected components and the reducer

Embedding of `MarikinaRoadNetwork.py` lines 16-25:
```
components = list(nx.strongly_connected_components(G))
...
if not nx.is_strongly_connected(G):
    G = G.subgraph(max(components, key=len)).copy()
```
`nx.strongly_connected_components` enumerates the equivalence classes of
mutual reachability (we enumerate them in node-list order, matching the
"first-encountered" tie-break contract); `nx.is_strongly_connected` raises
`NetworkXPointlessConcept` on the null graph and otherwise tests whether the
first component spans all nodes; Python's `max(.., key=len)` returns the
first item of maximal length. -/

/-- The strongly connected component of `u`: all nodes mutually reachable
with `u`. -/
def sccOf (G : Graph) (u : Nat) : List Nat :=
  G.nodes.filter (fun v => reachb G u v && reachb G v u)

/-- Enumerate components: take the component of the first pending node, then
continue with the pending nodes outside it.  Structural recursion on a fuel
argument (the pending list shrinks by at least one per step, so
`pending.length` fuel always suffices, see `componentsAux_fuel_irrel`). -/
def componentsAux (G : Graph) : Nat → List Nat → List (List Nat)
  | _, [] => []
  | 0, _ :: _ => []
  | fuel + 1, u :: rest =>
      let c := sccOf G u
      c :: componentsAux G fuel (rest.filter (fun v => !(v ∈ c : Bool)))

/-- `list(nx.strongly_connected_components(G))`. -/
def components (G : Graph) : List (List Nat) :=
  componentsAux G G.nodes.length G.nodes

/-- Any fuel at least the pending-list length gives the same enumeration. -/
lemma componentsAux_fuel_irrel (G : Graph) :
    ∀ (f₁ f₂ : Nat) (pending : List Nat), pending.length ≤ f₁ →
      pending.length ≤ f₂ → componentsAux G f₁ pending = componentsAux G f₂ pending := by
  intro f₁
  induction f₁ with
  | zero =>
      intro f₂ pending h1 _
      match pending, h1 with
      | [], _ =>
          cases f₂ <;> rfl
  | succ f₁ ih =>
      intro f₂ pending h1 h2
      match pending with
      | [] => cases f₂ <;> rfl
      | u :: rest =>
          match f₂, h2 with
          | f₂ + 1, h2 =>
              simp only [componentsAux]
              congr 1
              apply ih
              · exact le_trans (List.length_filter_le _ _)
                  (by simpa using Nat.le_of_succ_le_succ h1)
              · exact le_trans (List.length_filter_le _ _)
                  (by simpa using Nat.le_of_succ_le_succ h2)

/-- One comparison step of Python's `max(..., key=len)`: a later element
replaces the incumbent only when strictly longer. -/
def maxStep (best x : List Nat) : List Nat :=
  if best.length < x.length then x else best

/-- Python's `max(xs, key=len)` on a nonempty list: the first element of
maximal length (`max` keeps the incumbent on ties). -/
def maxBySize (l : List (List Nat)) : List Nat :=
  match l with
  | [] => []
  | c :: rest => rest.foldl maxStep c

/-- `nx.is_strongly_connected(G)` for a nonempty graph: the first strongly
connected component spans all nodes. -/
def isStronglyConnectedb (G : Graph) : Bool :=
  match G.nodes with
  | [] => false
  | u :: _ => (sccOf G u).length = G.nodes.length

/-- `G.subgraph(S)`: induced subgraph, keeping exactly the nodes in `S` and
the edges with both endpoints in `S` (attributes preserved). -/
def subgraph (G : Graph) (S : List Nat) : Graph :=
  { nodes := G.nodes.filter (fun v => (v ∈ S : Bool))
    edges := G.edges.filter (fun e => (e.src ∈ S : Bool) && (e.dst ∈ S : Bool)) }

/-- Lines 16-25 of `MarikinaRoadNetwork.py`: on the null graph
`nx.is_strongly_connected` raises `NetworkXPointlessConcept`; otherwise, if
the graph is not strongly connected, replace it by the induced subgraph of
the largest (first-encountered on ties) strongly connected component. -/
def reduce (G : Graph) : Except String Graph :=
  if G.nodes.isEmpty then
    .error "NetworkXPointlessConcept: Connectivity is undefined for the null graph."
  else if isStronglyConnectedb G then
    .ok G
  else
    .ok (subgraph G (maxBySize (components G)))

/-- The specification's notion of strong connectivity: nonempty, and every
node reaches every other node along directed edges. -/
def IsStronglyConnected (G : Graph) : Prop :=
  G.nodes ≠ [] ∧ ∀ u ∈ G.nodes, ∀ v ∈ G.nodes, Reaches G u v

lemma mem_sccOf {G : Graph} {u v : Nat} :
    v ∈ sccOf G u ↔ v ∈ G.nodes ∧ reachb G u v = true ∧ reachb G v u = true := by
  simp [sccOf, List.mem_filter]

lemma mem_sccOf_iff {G : Graph} (hwf : WF G) {u v : Nat} (hu : u ∈ G.nodes) :
    v ∈ sccOf G u ↔ v ∈ G.nodes ∧ Reaches G u v ∧ Reaches G v u := by
  rw [mem_sccOf]
  constructor
  · rintro ⟨hv, h1, h2⟩
    exact ⟨hv, (reachb_iff hwf hu).mp h1, (reachb_iff hwf hv).mp h2⟩
  · rintro ⟨hv, h1, h2⟩
    exact ⟨hv, (reachb_iff hwf hu).mpr h1, (reachb_iff hwf hv).mpr h2⟩

lemma self_mem_sccOf {G : Graph} (hwf : WF G) {u : Nat} (hu : u ∈ G.nodes) :
    u ∈ sccOf G u :=
  (mem_sccOf_iff hwf hu).mpr ⟨hu, Relation.ReflTransGen.refl, Relation.ReflTransGen.refl⟩

/-- Every enumerated component is the strongly connected component of one of
the nodes. -/
lemma componentsAux_mem {G : Graph} :
    ∀ (fuel : Nat) (pending : List Nat) (c : List Nat),
      (∀ v ∈ pending, v ∈ G.nodes) → c ∈ componentsAux G fuel pending →
      ∃ u ∈ G.nodes, c = sccOf G u := by
  intro fuel
  induction fuel with
  | zero =>
      intro pending c hpend hc
      match pending with
      | [] => simp [componentsAux] at hc
      | _ :: _ => simp [componentsAux] at hc
  | succ fuel ih =>
      intro pending c hpend hc
      match pending with
      | [] => simp [componentsAux] at hc
      | u :: rest =>
          simp only [componentsAux] at hc
          rcases List.mem_cons.mp hc with h | h
          · exact ⟨u, hpend u (List.mem_cons_self u rest), h⟩
          · exact ih _ c
              (fun v hv => hpend v (List.mem_cons_of_mem u (List.mem_of_mem_filter hv))) h

/-- Adjacency in an induced subgraph. -/
lemma mem_succs_subgraph {G : Graph} {S : List Nat} {u v : Nat} :
    v ∈ succs (subgraph G S).edges u ↔ v ∈ succs G.edges u ∧ u ∈ S ∧ v ∈ S := by
  simp only [mem_succs, subgraph, List.mem_filter]
  constructor
  · rintro ⟨e, ⟨he, hmem⟩, hs, hd⟩
    simp only [Bool.and_eq_true, decide_eq_true_eq] at hmem
    exact ⟨⟨e, he, hs, hd⟩, hs ▸ hmem.1, hd ▸ hmem.2⟩
  · rintro ⟨⟨e, he, hs, hd⟩, hu, hv⟩
    exact ⟨e, ⟨he, by simp [hs, hd, hu, hv]⟩, hs, hd⟩

/-- Key lemma: a directed path between two members of a strongly connected
component never leaves the component, hence survives in the induced
subgraph. -/
lemma reaches_subgraph_of_scc {G : Graph} (hwf : WF G) {u : Nat}
    (hu : u ∈ G.nodes) {v w : Nat} (hv : v ∈ sccOf G u) (hw : w ∈ sccOf G u)
    (h : Reaches G v w) : Reaches (subgraph G (sccOf G u)) v w := by
  obtain ⟨hvn, huv, hvu⟩ := (mem_sccOf_iff hwf hu).mp hv
  obtain ⟨hwn, huw, hwu⟩ := (mem_sccOf_iff hwf hu).mp hw
  clear hv
  induction h using Relation.ReflTransGen.head_induction_on with
  | refl => exact Relation.ReflTransGen.refl
  | head hstep htail ih =>
      rename_i a b
      -- b is on a path from a member of the SCC to w, hence in the SCC
      have hbn : b ∈ G.nodes := by
        obtain ⟨e, he, _, hd⟩ := mem_succs.mp hstep
        exact hd ▸ hwf.dst_mem e he
      have hub : Reaches G u b :=
        Relation.ReflTransGen.trans huv (Relation.ReflTransGen.single hstep)
      have hbw : Reaches G b w := htail
      have hbu : Reaches G b u := Relation.ReflTransGen.trans hbw hwu
      have hbscc : b ∈ sccOf G u := (mem_sccOf_iff hwf hu).mpr ⟨hbn, hub, hbu⟩
      have hascc : _ ∈ sccOf G u := (mem_sccOf_iff hwf hu).mpr ⟨‹_›, huv, hvu⟩
      refine Relation.ReflTransGen.head ?_ (ih hbn hub hbu)
      exact mem_succs_subgraph.mpr ⟨hstep, hascc, hbscc⟩

lemma foldl_maxStep_mem (rest : List (List Nat)) (c : List Nat) :
    rest.foldl maxStep c = c ∨ rest.foldl maxStep c ∈ rest := by
  induction rest generalizing c with
  | nil => left; rfl
  | cons x rest ih =>
      simp only [List.foldl_cons]
      rcases ih (maxStep c x) with h | h
      · rw [h]
        unfold maxStep
        split
        · right; exact List.mem_cons_self x rest
        · left; rfl
      · right; exact List.mem_cons_of_mem x h

lemma le_foldl_maxStep (rest : List (List Nat)) (c : List Nat) :
    c.length ≤ (rest.foldl maxStep c).length := by
  induction rest generalizing c with
  | nil => exact le_rfl
  | cons x rest ih =>
      simp only [List.foldl_cons]
      refine le_trans ?_ (ih (maxStep c x))
      unfold maxStep
      split
      · omega
      · exact le_rfl

lemma foldl_maxStep_ge (rest : List (List Nat)) (c : List Nat) :
    ∀ x ∈ rest, x.length ≤ (rest.foldl maxStep c).length := by
  induction rest generalizing c with
  | nil => intro x hx; simp at hx
  | cons y rest ih =>
      intro x hx
      simp only [List.foldl_cons]
      rcases List.mem_cons.mp hx with h | h
      · subst h
        refine le_trans ?_ (le_foldl_maxStep rest (maxStep c x))
        unfold maxStep
        split
        · exact le_rfl
        · omega
      · exact ih (maxStep c y) x h

lemma maxBySize_mem {l : List (List Nat)} (h : l ≠ []) : maxBySize l ∈ l := by
  match l with
  | [] => exact absurd rfl h
  | c :: rest =>
      rcases foldl_maxStep_mem rest c with h' | h'
      · rw [maxBySize, h']
        exact List.mem_cons_self c rest
      · exact List.mem_cons_of_mem c h'

lemma maxBySize_ge {l : List (List Nat)} :
    ∀ c ∈ l, c.length ≤ (maxBySize l).length := by
  match l with
  | [] => intro c hc; simp at hc
  | c :: rest =>
      intro x hx
      rcases List.mem_cons.mp hx with h | h
      · subst h
        exact le_foldl_maxStep rest x
      · exact foldl_maxStep_ge rest c x h

/-- If the first node's component spans all nodes, every node is mutually
reachable with the first node. -/
lemma sccOf_eq_nodes_of_length {G : Graph} {u : Nat}
    (h : (sccOf G u).length = G.nodes.length) : sccOf G u = G.nodes :=
  List.Sublist.eq_of_length (List.filter_sublist G.nodes) h

lemma isStronglyConnectedb_iff {G : Graph} (hwf : WF G) :
    isStronglyConnectedb G = true ↔ IsStronglyConnected G := by
  constructor
  · intro h
    unfold isStronglyConnectedb at h
    match hn : G.nodes, h with
    | u :: rest, h =>
        simp only [hn, decide_eq_true_eq] at h
        have hu : u ∈ G.nodes := by rw [hn]; exact List.mem_cons_self u rest
        have hspan : sccOf G u = G.nodes := by
          apply sccOf_eq_nodes_of_length
          rw [hn]
          exact h
        refine ⟨by rw [hn]; simp, ?_⟩
        intro v hv w hw
        have hv' : v ∈ sccOf G u := hspan ▸ hv
        have hw' : w ∈ sccOf G u := hspan ▸ hw
        obtain ⟨_, _, hvu⟩ := (mem_sccOf_iff hwf hu).mp hv'
        obtain ⟨_, huw, _⟩ := (mem_sccOf_iff hwf hu).mp hw'
        exact Relation.ReflTransGen.trans hvu huw
  · rintro ⟨hne, hall⟩
    unfold isStronglyConnectedb
    match hn : G.nodes, hne with
    | u :: rest, _ =>
        simp only [decide_eq_true_eq]
        have hu : u ∈ G.nodes := by rw [hn]; exact List.mem_cons_self u rest
        have hspan : sccOf G u = G.nodes := by
          have : ∀ v ∈ G.nodes, v ∈ sccOf G u := by
            intro v hv
            exact (mem_sccOf_iff hwf hu).mpr ⟨hv, hall u hu v hv, hall v hv u hu⟩
          unfold sccOf
          apply List.filter_eq_self.mpr
          intro v hv
          have := this v hv
          rw [mem_sccOf] at this
          simp [this.2.1, this.2.2]
        rw [hn] at hspan
        rw [hspan]

/-- A spanning first component collapses the enumeration to one component. -/
lemma components_length_one_of_sc {G : Graph}
    (h : isStronglyConnectedb G = true) : (components G).length = 1 := by
  unfold isStronglyConnectedb at h
  match hn : G.nodes, h with
  | u :: rest, h =>
      simp only [hn, decide_eq_true_eq] at h
      have hspan : sccOf G u = G.nodes := by
        apply sccOf_eq_nodes_of_length
        rw [hn]
        exact h
      unfold components
      rw [hn]
      simp only [List.length_cons, componentsAux]
      have hfilter : rest.filter (fun v => !(v ∈ sccOf G u : Bool)) = [] := by
        apply List.filter_eq_nil_iff.mpr
        intro v hv
        have : v ∈ G.nodes := by rw [hn]; exact List.mem_cons_of_mem u hv
        rw [← hspan] at this
        simp [this]
      rw [hfilter]
      have hnil : componentsAux G rest.length [] = [] := by
        cases rest.length <;> rfl
      rw [hnil]
      rfl

lemma components_nil_iff {G : Graph} : components G = [] ↔ G.nodes = [] := by
  unfold components
  constructor
  · intro h
    match hn : G.nodes with
    | [] => rfl
    | u :: rest =>
        rw [hn] at h
        simp [componentsAux] at h
  · intro h
    rw [h]
    rfl

lemma filter_mem_filter (l : List Nat) (p : Nat → Bool) :
    l.filter (fun v => (v ∈ l.filter p : Bool)) = l.filter p := by
  apply List.filter_congr
  intro v hv
  by_cases h : p v = true
  · simp [List.mem_filter, hv, h]
  · simp [List.mem_filter, h]

/-- The induced subgraph on a strongly connected component has exactly that
component as node list. -/
lemma subgraph_scc_nodes {G : Graph} {u : Nat} :
    (subgraph G (sccOf G u)).nodes = sccOf G u :=
  filter_mem_filter G.nodes (fun v => reachb G u v && reachb G v u)

/-- The induced subgraph on any strongly connected component is itself
strongly connected. -/
lemma subgraph_scc_strongly_connected {G : Graph} (hwf : WF G) {u : Nat}
    (hu : u ∈ G.nodes) : IsStronglyConnected (subgraph G (sccOf G u)) := by
  constructor
  · rw [subgraph_scc_nodes]
    intro h
    have := self_mem_sccOf hwf hu
    rw [h] at this
    exact absurd this (List.not_mem_nil u)
  · intro v hv w hw
    rw [subgraph_scc_nodes] at hv hw
    obtain ⟨hvn, huv, hvu⟩ := (mem_sccOf_iff hwf hu).mp hv
    obtain ⟨hwn, huw, hwu⟩ := (mem_sccOf_iff hwf hu).mp hw
    exact reaches_subgraph_of_scc hwf hu hv hw (Relation.ReflTransGen.trans hvu huw)

/-! ## Reducer theorems -/

/-- Attribute dictionary used by the concrete example graphs. -/
def exData : EdgeData :=
  { length := some 100, highway := Highway.str "residential"
    maxspeed := Maxspeed.none, travel_time := none }

/-- The spec's end-to-end example: nodes `{A, B, C}` embedded as `{0, 1, 2}`
with edges `A→B`, `B→A`, `B→C`. -/
def exGraphABC : Graph :=
  { nodes := [0, 1, 2]
    edges := [⟨0, 1, exData⟩, ⟨1, 0, exData⟩, ⟨1, 2, exData⟩] }

/-- A two-node strongly connected cycle. -/
def exGraphCycle : Graph :=
  { nodes := [0, 1], edges := [⟨0, 1, exData⟩, ⟨1, 0, exData⟩] }

/-- The null graph. -/
def emptyGraph : Graph := { nodes := [], edges := [] }

/-- C1: for every directed multigraph with two or more strongly connected
components, the reducer returns the induced subgraph of the
first-encountered component of greatest node count — keeping exactly the
edges whose endpoints both lie in that component — and that output graph is
itself strongly connected; on the 3-node example `A→B, B→A, B→C` the
components are `{A,B}` and `{C}` and the reducer selects `{A,B}`. -/
theorem C1_reducer_selects_largest_component :
    (∀ G : Graph, WF G → 2 ≤ (components G).length →
      reduce G = .ok (subgraph G (maxBySize (components G))) ∧
      maxBySize (components G) ∈ components G ∧
      (∀ c ∈ components G, c.length ≤ (maxBySize (components G)).length) ∧
      (subgraph G (maxBySize (components G))).edges =
        G.edges.filter (fun e =>
          (e.src ∈ maxBySize (components G) : Bool) &&
          (e.dst ∈ maxBySize (components G) : Bool)) ∧
      IsStronglyConnected (subgraph G (maxBySize (components G)))) ∧
    components exGraphABC = [[0, 1], [2]] ∧
    reduce exGraphABC = .ok (subgraph exGraphABC [0, 1]) ∧
    (subgraph exGraphABC [0, 1]).nodes = [0, 1] := by
  refine ⟨?_, by decide, rfl, by decide⟩
  intro G hwf h2
  have hnodes : G.nodes ≠ [] := by
    intro h
    have : components G = [] := components_nil_iff.mpr h
    rw [this] at h2
    simp at h2
  have hsc : isStronglyConnectedb G = false := by
    cases hb : isStronglyConnectedb G
    · rfl
    · have := components_length_one_of_sc hb
      omega
  have hempty : G.nodes.isEmpty = false := by
    cases hn : G.nodes.isEmpty
    · rfl
    · exact absurd (List.isEmpty_iff.mp hn) hnodes
  have hred : reduce G = .ok (subgraph G (maxBySize (components G))) := by
    simp [reduce, hempty, hsc]
  have hcompne : components G ≠ [] := by
    intro h
    rw [h] at h2
    simp at h2
  have hmem := maxBySize_mem hcompne
  obtain ⟨u, hu, heq⟩ :=
    componentsAux_mem G.nodes.length G.nodes _ (fun v hv => hv) hmem
  refine ⟨hred, hmem, maxBySize_ge, rfl, ?_⟩
  rw [heq]
  exact subgraph_scc_strongly_connected hwf hu

/-- Witness for C1: the general statement applied to the concrete 3-node
example. -/
theorem C1_reducer_selects_largest_component_witness :
    WF exGraphABC ∧ 2 ≤ (components exGraphABC).length ∧
      (reduce exGraphABC =
          .ok (subgraph exGraphABC (maxBySize (components exGraphABC))) ∧
        IsStronglyConnected
          (subgraph exGraphABC (maxBySize (components exGraphABC)))) := by
  have hwf : WF exGraphABC := ⟨by decide, by decide, by decide⟩
  have h2 : 2 ≤ (components exGraphABC).length := by decide
  have h := C1_reducer_selects_largest_component.1 exGraphABC hwf h2
  exact ⟨hwf, h2, h.1, h.2.2.2.2⟩

/-- C6: a strongly connected input passes through the reducer unchanged:
`reduce` returns the very input graph, nodes, edges and attributes included. -/
theorem C6_reducer_noop_on_strongly_connected (G : Graph) (hwf : WF G)
    (h : IsStronglyConnected G) : reduce G = .ok G := by
  have hb := (isStronglyConnectedb_iff hwf).mpr h
  have hempty : G.nodes.isEmpty = false := by
    cases hn : G.nodes.isEmpty
    · rfl
    · exact absurd (List.isEmpty_iff.mp hn) h.1
  simp [reduce, hempty, hb]

/-- Witness for C6: the two-node cycle is strongly connected and the reducer
leaves it untouched. -/
theorem C6_reducer_noop_on_strongly_connected_witness :
    reduce exGraphCycle = .ok exGraphCycle := by
  have hwf : WF exGraphCycle := ⟨by decide, by decide, by decide⟩
  have hsc : IsStronglyConnected exGraphCycle := by
    refine ⟨by decide, ?_⟩
    intro u hu v hv
    fin_cases hu <;> fin_cases hv <;>
      exact (reachb_iff hwf (by decide)).mp (by decide)
  exact C6_reducer_noop_on_strongly_connected exGraphCycle hwf hsc

/-- Counterexample to C7: on the null graph the component enumeration is
indeed empty, but the run does not "proceed normally with the empty graph
unchanged" — `nx.is_strongly_connected` raises `NetworkXPointlessConcept`,
so the reducer fails instead of returning the empty graph. -/
theorem C7_cex_empty_graph_raises :
    components emptyGraph = [] ∧
      reduce emptyGraph ≠ .ok emptyGraph ∧
      reduce emptyGraph =
        .error "NetworkXPointlessConcept: Connectivity is undefined for the null graph." := by
  refine ⟨rfl, fun h => Except.noConfusion h, rfl⟩

/-- C7 as amended: on an empty input graph the reducer reports zero strongly
connected components, and then the strong-connectivity check raises
`NetworkXPointlessConcept`, aborting the run. -/
theorem C7_empty_graph_zero_components_then_error (G : Graph)
    (h : G.nodes = []) :
    components G = [] ∧
      reduce G =
        .error "NetworkXPointlessConcept: Connectivity is undefined for the null graph." := by
  refine ⟨components_nil_iff.mpr h, ?_⟩
  simp [reduce, h]

/-- Witness for the amended C7, at the concrete empty graph. -/
theorem C7_empty_graph_zero_components_then_error_witness :
    components emptyGraph = [] ∧
      reduce emptyGraph =
        .error "NetworkXPointlessConcept: Connectivity is undefined for the null graph." :=
  C7_empty_graph_zero_components_then_error emptyGraph rfl

/-! ## Travel-time annotation

Embedding of `MarikinaRoadNetwork.py` lines 41-80: the `default_speeds`
table, the speed resolution with its `try/except` fallbacks, and the
`travel_time = (length / 1000) / (speed / 3600)` computation.  Python string
parsing (`float(s)`) is embedded for finite decimal literals (optional sign,
digits, decimal point, exponent); the rational embedding has no `inf`/`nan`
values. -/

/-- Numeric value of a digit string. -/
def digitsVal (ds : List Char) : Nat :=
  ds.foldl (fun n c => n * 10 + (c.toNat - 48)) 0

/-- Exponent suffix of a float literal: optional sign then at least one
digit, consuming the whole rest. -/
def pyExpTail (t : List Char) : Option Int :=
  let signed : Int × List Char :=
    match t with
    | '+' :: r => (1, r)
    | '-' :: r => (-1, r)
    | r => (1, r)
  let eds := signed.2.takeWhile Char.isDigit
  let rest := signed.2.dropWhile Char.isDigit
  if eds.isEmpty || !rest.isEmpty then Option.none
  else some (signed.1 * digitsVal eds)

/-- After the mantissa: either nothing, or an `e`/`E` exponent. -/
def pyExp? : List Char → Option Int
  | [] => some 0
  | 'e' :: t => pyExpTail t
  | 'E' :: t => pyExpTail t
  | _ => Option.none

/-- Python `float(s)` on a string: strip whitespace, optional sign, digits
with optional fraction, optional exponent.  `Option.none` is the
`ValueError` case. -/
def pyFloat? (s : String) : Option ℚ :=
  let cs := ((s.toList.dropWhile Char.isWhitespace).reverse.dropWhile
    Char.isWhitespace).reverse
  let signed : ℚ × List Char :=
    match cs with
    | '+' :: t => (1, t)
    | '-' :: t => (-1, t)
    | t => (1, t)
  let ipart := signed.2.takeWhile Char.isDigit
  let rest₁ := signed.2.dropWhile Char.isDigit
  let fparts : List Char × List Char :=
    match rest₁ with
    | '.' :: t => (t.takeWhile Char.isDigit, t.dropWhile Char.isDigit)
    | t => ([], t)
  if ipart.isEmpty && fparts.1.isEmpty then Option.none
  else
    match pyExp? fparts.2 with
    | Option.none => Option.none
    | some e =>
        let mant : ℚ :=
          (digitsVal ipart : ℚ) + (digitsVal fparts.1 : ℚ) / (10 : ℚ) ^ fparts.1.length
        some (signed.1 * mant * (10 : ℚ) ^ e)

/-- Worker for `pySplitWs`: accumulate the current (reversed) token, emit it
at each whitespace run or at the end. -/
def splitWsAux : List Char → List Char → List String
  | [], acc => if acc.isEmpty then [] else [String.mk acc.reverse]
  | c :: cs, acc =>
      if c.isWhitespace then
        if acc.isEmpty then splitWsAux cs []
        else String.mk acc.reverse :: splitWsAux cs []
      else splitWsAux cs (c :: acc)

/-- Python `s.split()` with no separator: split on whitespace runs, dropping
the empty pieces. -/
def pySplitWs (s : String) : List String :=
  splitWsAux s.toList []

/-- The `default_speeds` dictionary (lines 42-45), in km/h. -/
def default_speeds : List (String × ℚ) :=
  [("motorway", 80), ("trunk", 60), ("primary", 50), ("secondary", 40),
   ("tertiary", 35), ("residential", 30), ("unclassified", 30)]

/-- `default_speeds.get(highway, 30)`. -/
def defaultSpeed (h : String) : ℚ :=
  match default_speeds.lookup h with
  | some v => v
  | Option.none => 30

/-- Lines 52-54: `data.get('highway', 'unclassified')`, then first element
when the value is a list (`highway[0]` raises `IndexError` on an empty
list). -/
def resolveHighway : Highway → Except String String
  | Highway.none => .ok "unclassified"
  | Highway.str s => .ok s
  | Highway.list [] => .error "IndexError: list index out of range"
  | Highway.list (h :: _) => .ok h

/-- Python truthiness of the `maxspeed` value (`if speed:` on line 56). -/
def Maxspeed.truthy : Maxspeed → Bool
  | Maxspeed.none => false
  | Maxspeed.str s => !s.isEmpty
  | Maxspeed.list l => !l.isEmpty
  | Maxspeed.num q => decide (q ≠ 0)

/-- Lines 55-78: resolve the effective speed.  A truthy string is split on
whitespace and its first token parsed (`ValueError`/`IndexError` fall back
to the default table); a truthy list takes its first parseable element
(`for`/`else` falls back); a truthy number is `float(speed)` itself; a falsy
`maxspeed` (absent, empty string, empty list, numeric zero) uses the default
table keyed by road class. -/
def resolveSpeed (hw : String) (ms : Maxspeed) : ℚ :=
  if ms.truthy then
    match ms with
    | Maxspeed.str s =>
        match pySplitWs s with
        | [] => defaultSpeed hw
        | t :: _ =>
            match pyFloat? t with
            | some q => q
            | Option.none => defaultSpeed hw
    | Maxspeed.list l =>
        match l.findSome? pyFloat? with
        | some q => q
        | Option.none => defaultSpeed hw
    | Maxspeed.num q => q
    | Maxspeed.none => defaultSpeed hw
  else
    defaultSpeed hw

/-- The body of the annotation loop (lines 48-80): skip edges with zero or
absent `length`; otherwise resolve highway and speed and set
`travel_time = (length / 1000) / (speed / 3600)` seconds.  Python raises
`ZeroDivisionError` when the resolved speed is zero. -/
def annotateEdge (d : EdgeData) : Except String EdgeData :=
  let length := d.length.getD 0
  if length = 0 then .ok d
  else
    match resolveHighway d.highway with
    | .error e => .error e
    | .ok hw =>
        let speed := resolveSpeed hw d.maxspeed
        if speed = 0 then .error "ZeroDivisionError: float division by zero"
        else .ok { d with travel_time := some ((length / 1000) / (speed / 3600)) }

/-- The annotation loop over the edge list, in order; the first uncaught
exception aborts the run. -/
def annotateEdges : List Edge → Except String (List Edge)
  | [] => .ok []
  | e :: es =>
      match annotateEdge e.data with
      | .error err => .error err
      | .ok d =>
          match annotateEdges es with
          | .error err => .error err
          | .ok es' => .ok (Edge.mk e.src e.dst d :: es')

/-- The annotation loop over all edges of the graph (`for u, v, key, data in
G.edges(...)` on line 48). -/
def annotateGraph (G : Graph) : Except String Graph :=
  match annotateEdges G.edges with
  | .error e => .error e
  | .ok es => .ok { nodes := G.nodes, edges := es }

/-- The full processing pipeline of `MarikinaRoadNetwork.py`: component
reduction (lines 16-25) followed by travel-time annotation (lines 48-80). -/
def processGraph (G : Graph) : Except String Graph :=
  match reduce G with
  | .error e => .error e
  | .ok R => annotateGraph R

/-! ## Annotator theorems -/

/-- Edge data for the C2 example: 1000 m, resolved speed 50 km/h. -/
def edgeC2 : EdgeData :=
  { length := some 1000, highway := Highway.str "primary"
    maxspeed := Maxspeed.num 50, travel_time := Option.none }

/-- Edge data for the C5 witness: zero length. -/
def edgeC5 : EdgeData :=
  { length := some 0, highway := Highway.str "residential"
    maxspeed := Maxspeed.none, travel_time := Option.none }

/-- C2: for every edge with a present, nonzero length and a nonzero resolved
speed, the annotator assigns
`travel_time = (length in km) / (speed in km/h) * 3600` seconds, leaving the
other attributes untouched; for length 1000 m and resolved speed 50 km/h the
value is exactly 72 seconds. -/
theorem C2_travel_time_formula :
    (∀ (d : EdgeData) (L : ℚ) (hw : String), d.length = some L → L ≠ 0 →
      resolveHighway d.highway = .ok hw →
      resolveSpeed hw d.maxspeed ≠ 0 →
      annotateEdge d =
        .ok { d with travel_time := some (L / 1000 / resolveSpeed hw d.maxspeed * 3600) }) ∧
    annotateEdge edgeC2 = .ok { edgeC2 with travel_time := some 72 } := by
  constructor
  · intro d L hw hlen hL hhw hs
    unfold annotateEdge
    simp only [hlen, Option.getD_some, if_neg hL, hhw, if_neg hs]
    congr 3
    ring
  · simp +decide [annotateEdge, resolveHighway, resolveSpeed, Maxspeed.truthy, edgeC2]
    norm_num

/-- Witness for C2: the general formula applied to the 1000 m / 50 km/h
edge. -/
theorem C2_travel_time_formula_witness :
    annotateEdge edgeC2 =
      .ok { edgeC2 with travel_time := some (1000 / 1000 / resolveSpeed "primary" edgeC2.maxspeed * 3600) } := by
  refine C2_travel_time_formula.1 edgeC2 1000 "primary" rfl (by norm_num) rfl ?_
  simp +decide [resolveSpeed, Maxspeed.truthy, edgeC2]

/-- C5: an edge whose `length` attribute is absent or zero is skipped: the
annotator returns its data unchanged (so no `travel_time` key appears if
none was there) and this is an `ok` outcome, not an error. -/
theorem C5_zero_or_absent_length_skipped :
    ∀ d : EdgeData, d.length = Option.none ∨ d.length = some 0 →
      annotateEdge d = .ok d := by
  intro d h
  unfold annotateEdge
  rcases h with h | h <;> simp [h]

/-- Witness for C5: a zero-length edge passes through unchanged, with its
`travel_time` still absent. -/
theorem C5_zero_or_absent_length_skipped_witness :
    annotateEdge edgeC5 = .ok edgeC5 ∧ edgeC5.travel_time = Option.none :=
  ⟨C5_zero_or_absent_length_skipped edgeC5 (Or.inr rfl), rfl⟩

/-- The list clause of claim C3 in the spec's own words: "use the first
value that parses as a valid positive number; if none parse, fall back to
the default table".  Stated only to compare with the code's `resolveSpeed`. -/
def firstValidPositiveSpeed (hw : String) (l : List String) : ℚ :=
  match l.findSome? (fun s =>
    match pyFloat? s with
    | some q => if 0 < q then some q else Option.none
    | Option.none => Option.none) with
  | some q => q
  | Option.none => defaultSpeed hw

/-- Counterexample to C3: for `maxspeed=["-5","20"]` on a residential edge
the claimed precedence ("the first value that parses as a valid positive
number") yields 20, but the code takes the first value `float()` accepts at
all and resolves -5; moreover a numeric `maxspeed` of 0 is falsy in Python,
so it is not "parsed directly" but falls back to the default table. -/
theorem C3_cex_speed_precedence :
    firstValidPositiveSpeed "residential" ["-5", "20"] = 20 ∧
    resolveSpeed "residential" (Maxspeed.list ["-5", "20"]) = -5 ∧
    resolveSpeed "residential" (Maxspeed.list ["-5", "20"]) ≠
      firstValidPositiveSpeed "residential" ["-5", "20"] ∧
    resolveSpeed "residential" (Maxspeed.num 0) = 30 := by
  have h1 : firstValidPositiveSpeed "residential" ["-5", "20"] = 20 := by
    simp +decide [firstValidPositiveSpeed, List.findSome?, pyFloat?, pyExp?, pyExpTail,
      digitsVal]
  have h2 : resolveSpeed "residential" (Maxspeed.list ["-5", "20"]) = -5 := by
    simp +decide [resolveSpeed, Maxspeed.truthy, List.findSome?, pyFloat?, pyExp?,
      pyExpTail, digitsVal]
  refine ⟨h1, h2, ?_, ?_⟩
  · rw [h1, h2]
    norm_num
  · simp +decide [resolveSpeed, Maxspeed.truthy, defaultSpeed, default_speeds]

/-- C3 as amended: the effective speed is resolved by precedence — a truthy
string has its first whitespace token parsed by `float` (falling back to the
default table when that fails or the string is all whitespace); a truthy
list yields the first value that parses as a number, positive or not; a
truthy (nonzero) numeric value is used directly; a falsy `maxspeed`
(absent, empty string, empty list, numeric zero) and every parse failure
fall back to the default table keyed by road class (motorway 80, trunk 60,
primary 50, secondary 40, tertiary 35, residential 30, unclassified 30,
anything unrecognized 30), where a list-valued `highway` contributes its
first element.  The spec's three examples hold as stated. -/
theorem C3_amended_speed_resolution :
    (∀ hw s, resolveSpeed hw (Maxspeed.str s) =
      (match pySplitWs s with
        | [] => defaultSpeed hw
        | t :: _ => (pyFloat? t).getD (defaultSpeed hw))) ∧
    (∀ hw l, resolveSpeed hw (Maxspeed.list l) =
      (l.findSome? pyFloat?).getD (defaultSpeed hw)) ∧
    (∀ hw q, q ≠ 0 → resolveSpeed hw (Maxspeed.num q) = q) ∧
    (∀ hw, resolveSpeed hw (Maxspeed.num 0) = defaultSpeed hw) ∧
    (∀ hw, resolveSpeed hw Maxspeed.none = defaultSpeed hw) ∧
    (defaultSpeed "motorway" = 80 ∧ defaultSpeed "trunk" = 60 ∧
      defaultSpeed "primary" = 50 ∧ defaultSpeed "secondary" = 40 ∧
      defaultSpeed "tertiary" = 35 ∧ defaultSpeed "residential" = 30 ∧
      defaultSpeed "unclassified" = 30) ∧
    (∀ h, default_speeds.lookup h = Option.none → defaultSpeed h = 30) ∧
    (∀ h rest, resolveHighway (Highway.list (h :: rest)) = .ok h) ∧
    (∀ hw, resolveSpeed hw (Maxspeed.str "30 km/h") = 30) ∧
    (∀ hw, resolveSpeed hw (Maxspeed.list ["20", "not-a-number"]) = 20) ∧
    resolveSpeed "residential" (Maxspeed.list ["bad", "worse"]) = 30 := by
  have hstr : ∀ hw s, resolveSpeed hw (Maxspeed.str s) =
      (match pySplitWs s with
        | [] => defaultSpeed hw
        | t :: _ => (pyFloat? t).getD (defaultSpeed hw)) := by
    intro hw s
    by_cases hs : s.isEmpty
    · have hempty : s = "" := (String.isEmpty_iff s).mp hs
      subst hempty
      have h0 : pySplitWs "" = [] := by decide
      simp [resolveSpeed, Maxspeed.truthy, h0]
    · unfold resolveSpeed
      have ht : (Maxspeed.str s).truthy = true := by simp [Maxspeed.truthy, hs]
      rw [if_pos ht]
      cases h : pySplitWs s with
      | nil => simp [h]
      | cons t rest => cases hf : pyFloat? t <;> simp [h, hf]
  have hlist : ∀ hw l, resolveSpeed hw (Maxspeed.list l) =
      (l.findSome? pyFloat?).getD (defaultSpeed hw) := by
    intro hw l
    cases l with
    | nil => simp [resolveSpeed, Maxspeed.truthy, List.findSome?]
    | cons s rest =>
        unfold resolveSpeed
        have ht : (Maxspeed.list (s :: rest)).truthy = true := by
          simp [Maxspeed.truthy]
        rw [if_pos ht]
        cases hf : (s :: rest).findSome? pyFloat? <;> simp [hf]
  refine ⟨hstr, hlist, ?_, ?_, ?_, ?_, ?_, ?_, ?_, ?_, ?_⟩
  · intro hw q hq
    simp [resolveSpeed, Maxspeed.truthy, hq]
  · intro hw
    simp [resolveSpeed, Maxspeed.truthy]
  · intro hw
    simp [resolveSpeed, Maxspeed.truthy]
  · refine ⟨by decide, by decide, by decide, by decide, by decide, by decide, by decide⟩
  · intro h hh
    simp [defaultSpeed, hh]
  · intro h rest
    rfl
  · intro hw
    have h : pySplitWs "30 km/h" = ["30", "km/h"] := by decide
    rw [hstr hw "30 km/h", h]
    have : pyFloat? "30" = some 30 := by
      simp +decide [pyFloat?, pyExp?, pyExpTail, digitsVal]
    simp [this]
  · intro hw
    rw [hlist hw ["20", "not-a-number"]]
    have : (["20", "not-a-number"].findSome? pyFloat?) = some 20 := by
      simp +decide [List.findSome?, pyFloat?, pyExp?, pyExpTail, digitsVal]
    simp [this]
  · rw [hlist "residential" ["bad", "worse"]]
    have : (["bad", "worse"].findSome? pyFloat?) = Option.none := by
      simp +decide [List.findSome?, pyFloat?, pyExp?, pyExpTail, digitsVal]
    simp [this]
    decide

/-- Witness for the amended C3: the nonzero-number clause applied at 50. -/
theorem C3_amended_speed_resolution_witness :
    resolveSpeed "residential" (Maxspeed.num 50) = 50 :=
  C3_amended_speed_resolution.2.2.1 "residential" 50 (by norm_num)

/-! ## Pipeline lemmas for the post-processing invariant -/

/-- Case analysis on a successful edge annotation: either the edge was
skipped for zero/absent length, or `travel_time` was computed from the
resolved highway and a nonzero resolved speed. -/
lemma annotateEdge_cases {d d' : EdgeData} (h : annotateEdge d = .ok d') :
    (d.length.getD 0 = 0 ∧ d' = d) ∨
    (d.length.getD 0 ≠ 0 ∧ ∃ hw, resolveHighway d.highway = .ok hw ∧
      resolveSpeed hw d.maxspeed ≠ 0 ∧
      d' = { d with travel_time := some ((d.length.getD 0 / 1000) / (resolveSpeed hw d.maxspeed / 3600)) }) := by
  unfold annotateEdge at h
  by_cases hz : d.length.getD 0 = 0
  · rw [if_pos hz] at h
    exact Or.inl ⟨hz, (Except.ok.injEq _ _).mp h |>.symm⟩
  · rw [if_neg hz] at h
    right
    refine ⟨hz, ?_⟩
    cases hhw : resolveHighway d.highway with
    | error e => rw [hhw] at h; exact absurd h (by simp)
    | ok hw =>
        rw [hhw] at h
        dsimp only at h
        by_cases hs : resolveSpeed hw d.maxspeed = 0
        · rw [if_pos hs] at h
          exact absurd h (by simp)
        · rw [if_neg hs] at h
          exact ⟨hw, rfl, hs, ((Except.ok.injEq _ _).mp h).symm⟩

/-- Every edge of a successfully annotated list comes from an input edge
with the same endpoints whose data annotated to it. -/
lemma annotateEdges_mem :
    ∀ {es es' : List Edge}, annotateEdges es = .ok es' →
      ∀ e' ∈ es', ∃ e ∈ es, e'.src = e.src ∧ e'.dst = e.dst ∧
        annotateEdge e.data = .ok e'.data := by
  intro es
  induction es with
  | nil =>
      intro es' h e' he'
      unfold annotateEdges at h
      cases (Except.ok.injEq _ _).mp h
      simp at he'
  | cons e es ih =>
      intro es' h e' he'
      unfold annotateEdges at h
      cases hd : annotateEdge e.data with
      | error err => rw [hd] at h; exact absurd h (by simp)
      | ok d =>
          rw [hd] at h
          cases ht : annotateEdges es with
          | error err => rw [ht] at h; exact absurd h (by simp)
          | ok tl =>
              rw [ht] at h
              cases (Except.ok.injEq _ _).mp h
              rcases List.mem_cons.mp he' with h' | h'
              · subst h'
                exact ⟨e, List.mem_cons_self e es, rfl, rfl, hd⟩
              · obtain ⟨e₀, he₀, h1, h2, h3⟩ := ih ht e' h'
                exact ⟨e₀, List.mem_cons_of_mem e he₀, h1, h2, h3⟩

/-- Annotation preserves the adjacency structure: same successor lists. -/
lemma annotateEdges_succs :
    ∀ {es es' : List Edge}, annotateEdges es = .ok es' →
      ∀ u, succs es' u = succs es u := by
  intro es
  induction es with
  | nil =>
      intro es' h u
      unfold annotateEdges at h
      cases (Except.ok.injEq _ _).mp h
      rfl
  | cons e es ih =>
      intro es' h u
      unfold annotateEdges at h
      cases hd : annotateEdge e.data with
      | error err => rw [hd] at h; exact absurd h (by simp)
      | ok d =>
          rw [hd] at h
          cases ht : annotateEdges es with
          | error err => rw [ht] at h; exact absurd h (by simp)
          | ok tl =>
              rw [ht] at h
              cases (Except.ok.injEq _ _).mp h
              show succs (Edge.mk e.src e.dst d :: tl) u = succs (e :: es) u
              have htl := ih ht u
              unfold succs at htl ⊢
              simp only [List.filterMap_cons]
              rw [htl]

/-- A successful annotation pass preserves nodes, reachability, and strong
connectivity. -/
lemma annotateGraph_preserves_sc {R G' : Graph}
    (h : annotateGraph R = .ok G') (hsc : IsStronglyConnected R) :
    IsStronglyConnected G' := by
  unfold annotateGraph at h
  cases hes : annotateEdges R.edges with
  | error e => rw [hes] at h; exact absurd h (by simp)
  | ok es =>
      rw [hes] at h
      cases (Except.ok.injEq _ _).mp h
      have hsuccs : ∀ u, succs es u = succs R.edges u := annotateEdges_succs hes
      have hrel : (fun a b => b ∈ succs es a) = (fun a b => b ∈ succs R.edges a) := by
        funext a b
        rw [hsuccs a]
      refine ⟨hsc.1, ?_⟩
      intro u hu v hv
      have := hsc.2 u hu v hv
      unfold Reaches at this ⊢
      simp only [hrel]
      exact this

/-- A successful reduction yields a strongly connected graph. -/
lemma reduce_ok_sc {G R : Graph} (hwf : WF G) (h : reduce G = .ok R) :
    IsStronglyConnected R := by
  unfold reduce at h
  by_cases he : G.nodes.isEmpty
  · rw [if_pos he] at h
    exact absurd h (by simp)
  · rw [if_neg he] at h
    by_cases hb : isStronglyConnectedb G
    · rw [if_pos hb] at h
      cases (Except.ok.injEq _ _).mp h
      exact (isStronglyConnectedb_iff hwf).mp hb
    · rw [if_neg hb] at h
      cases (Except.ok.injEq _ _).mp h
      have hnodes : G.nodes ≠ [] := by
        intro hn
        rw [hn] at he
        exact he rfl
      have hcompne : components G ≠ [] := fun hc => hnodes (components_nil_iff.mp hc)
      obtain ⟨u, hu, heq⟩ :=
        componentsAux_mem G.nodes.length G.nodes _ (fun v hv => hv) (maxBySize_mem hcompne)
      have heq' : maxBySize (components G) = sccOf G u := heq
      rw [heq']
      exact subgraph_scc_strongly_connected hwf hu

/-- The reducer never invents edges: its output edges are input edges. -/
lemma reduce_ok_edges_subset {G R : Graph} (h : reduce G = .ok R) :
    ∀ e ∈ R.edges, e ∈ G.edges := by
  unfold reduce at h
  by_cases he : G.nodes.isEmpty
  · rw [if_pos he] at h
    exact absurd h (by simp)
  · rw [if_neg he] at h
    by_cases hb : isStronglyConnectedb G
    · rw [if_pos hb] at h
      cases (Except.ok.injEq _ _).mp h
      exact fun e he => he
    · rw [if_neg hb] at h
      cases (Except.ok.injEq _ _).mp h
      exact fun e he => List.mem_of_mem_filter he

/-! ## C4: the post-processing invariant -/

/-- A zero-length edge for the C4 counterexample. -/
def cexDataZero : EdgeData :=
  { length := some 0, highway := Highway.str "residential"
    maxspeed := Maxspeed.none, travel_time := Option.none }

/-- An edge with a negative posted speed for the C4 counterexample. -/
def cexDataNeg : EdgeData :=
  { length := some 1000, highway := Highway.str "residential"
    maxspeed := Maxspeed.str "-30 km/h", travel_time := Option.none }

/-- The C4 counterexample input: a strongly connected two-node cycle whose
two edges have length 0 and a negative posted speed respectively. -/
def cexGraphC4 : Graph :=
  { nodes := [0, 1], edges := [⟨0, 1, cexDataZero⟩, ⟨1, 0, cexDataNeg⟩] }

/-- What the pipeline actually produces on `cexGraphC4`. -/
def cexGraphC4Out : Graph :=
  { nodes := [0, 1]
    edges := [⟨0, 1, cexDataZero⟩,
              ⟨1, 0, { cexDataNeg with travel_time := some (-120) }⟩] }

/-- A one-node graph with no edges, for the C4 witness. -/
def singletonGraph : Graph := { nodes := [0], edges := [] }

/-- Counterexample to C4: after the full pipeline the zero-length edge
carries no `travel_time` at all, and the edge posted at "-30 km/h" carries
the negative value -120 — so the output does not satisfy "every edge carries
a non-negative finite travel_time". -/
theorem C4_cex_pipeline_edge_without_travel_time :
    processGraph cexGraphC4 = .ok cexGraphC4Out ∧
    Edge.mk 0 1 cexDataZero ∈ cexGraphC4Out.edges ∧
    (Edge.mk 0 1 cexDataZero).data.travel_time = Option.none ∧
    Edge.mk 1 0 { cexDataNeg with travel_time := some (-120) } ∈ cexGraphC4Out.edges ∧
    (Edge.mk 1 0 { cexDataNeg with travel_time := some (-120) }).data.travel_time =
      some (-120) ∧ ¬(0 : ℚ) ≤ -120 := by
  refine ⟨?_, by decide, rfl, by decide, rfl, by norm_num⟩
  have hred : reduce cexGraphC4 = .ok cexGraphC4 := rfl
  have hsplit : pySplitWs "-30 km/h" = ["-30", "km/h"] := by decide
  simp only [processGraph, hred]
  simp +decide [annotateGraph, annotateEdges, annotateEdge, resolveHighway, resolveSpeed,
    Maxspeed.truthy, hsplit, pyFloat?, pyExp?, pyExpTail, digitsVal, cexGraphC4,
    cexGraphC4Out, cexDataZero, cexDataNeg]
  norm_num

/-- C4 as amended: when the pipeline (reduction then annotation) succeeds on
a well-formed road graph whose edges carry no prior `travel_time` and have
non-negative lengths, the output graph is strongly connected, its
zero/absent-length edges carry no `travel_time`, and every other edge
carries a `travel_time` value that is non-negative (and, as a rational,
finite) whenever its resolved speed is positive. -/
theorem C4_processed_graph_invariant (G : Graph) (hwf : WF G)
    (hclean : ∀ e ∈ G.edges, e.data.travel_time = Option.none)
    (hlen : ∀ e ∈ G.edges, 0 ≤ e.data.length.getD 0)
    (G' : Graph) (hrun : processGraph G = .ok G') :
    IsStronglyConnected G' ∧
    ∀ e ∈ G'.edges,
      (e.data.length.getD 0 = 0 → e.data.travel_time = Option.none) ∧
      (e.data.length.getD 0 ≠ 0 → ∃ t : ℚ, e.data.travel_time = some t ∧
        ∀ hw, resolveHighway e.data.highway = .ok hw →
          0 < resolveSpeed hw e.data.maxspeed → 0 ≤ t) := by
  unfold processGraph at hrun
  cases hr : reduce G with
  | error err => rw [hr] at hrun; exact absurd hrun (by simp)
  | ok R =>
      rw [hr] at hrun
      dsimp only at hrun
      have hRsc : IsStronglyConnected R := reduce_ok_sc hwf hr
      have hRsub := reduce_ok_edges_subset hr
      refine ⟨annotateGraph_preserves_sc hrun hRsc, ?_⟩
      unfold annotateGraph at hrun
      cases hes : annotateEdges R.edges with
      | error err => rw [hes] at hrun; exact absurd hrun (by simp)
      | ok es =>
          rw [hes] at hrun
          dsimp only at hrun
          cases (Except.ok.injEq _ _).mp hrun
          intro e' he'
          obtain ⟨e, heR, _, _, hann⟩ := annotateEdges_mem hes e' he'
          have heG : e ∈ G.edges := hRsub e heR
          rcases annotateEdge_cases hann with ⟨hz, hdata⟩ | ⟨hnz, hw₀, hhw₀, hs₀, hdata⟩
          · constructor
            · intro _
              rw [hdata]
              exact hclean e heG
            · intro hne
              rw [hdata] at hne
              exact absurd hz hne
          · constructor
            · intro hzero
              rw [hdata] at hzero
              simp only at hzero
              exact absurd hzero hnz
            · intro _
              refine ⟨(e.data.length.getD 0 / 1000) / (resolveSpeed hw₀ e.data.maxspeed / 3600),
                by rw [hdata], ?_⟩
              intro hw hhw hpos
              have hhw' : hw = hw₀ := by
                rw [hdata] at hhw
                simp only at hhw
                rw [hhw₀] at hhw
                exact ((Except.ok.injEq _ _).mp hhw).symm
              subst hhw'
              rw [hdata] at hpos
              simp only at hpos
              have hL : 0 ≤ e.data.length.getD 0 := hlen e heG
              have h1 : 0 ≤ e.data.length.getD 0 / 1000 := by positivity
              have h2 : 0 ≤ resolveSpeed hw e.data.maxspeed / 3600 := by positivity
              exact div_nonneg h1 h2

/-- Witness for the amended C4: the pipeline hypotheses hold for the
one-node graph, whose processed form is strongly connected. -/
theorem C4_processed_graph_invariant_witness :
    IsStronglyConnected singletonGraph ∧
    ∀ e ∈ singletonGraph.edges,
      (e.data.length.getD 0 = 0 → e.data.travel_time = Option.none) ∧
      (e.data.length.getD 0 ≠ 0 → ∃ t : ℚ, e.data.travel_time = some t ∧
        ∀ hw, resolveHighway e.data.highway = .ok hw →
          0 < resolveSpeed hw e.data.maxspeed → 0 ≤ t) :=
  C4_processed_graph_invariant singletonGraph ⟨by decide, by decide, by decide⟩
    (by intro e he; simp [singletonGraph] at he)
    (by intro e he; simp [singletonGraph] at he)
    singletonGraph rfl

/-! ## Hospital locations

Embedding of `HospitalLocations.py`: element parsing (lines 35-41), the
snapping loop (lines 60-75) and the connectivity validation loop
(lines 87-93).  The external `ox.distance.nearest_nodes` call is passed in
as a function `snap` that may raise. -/

/-- One element of the Overpass response: optional node coordinates
(`lat`/`lon`), optional `center` coordinates (ways/relations), optional
`name` tag. -/
structure OsmElement where
  name : Option String
  lat : Option ℚ
  lon : Option ℚ
  center_lat : Option ℚ
  center_lon : Option ℚ
deriving DecidableEq, Repr

/-- Python `a or b` on optional numbers: `a` when truthy (present and
nonzero), else `b`. -/
def pyOr (a b : Option ℚ) : Option ℚ :=
  match a with
  | some x => if x ≠ 0 then some x else b
  | Option.none => b

/-- A parsed hospital record (the dict appended on line 41). -/
structure Facility where
  name : String
  latitude : ℚ
  longitude : ℚ
deriving DecidableEq, Repr

/-- Lines 36-41: `name = element['tags'].get('name', 'Unnamed')`,
`lat = element.get('lat') or element.get('center', {}).get('lat')` (same
for `lon`), then `if lat and lon:` keeps the record. -/
def parseHospital (el : OsmElement) : Option Facility :=
  let name := el.name.getD "Unnamed"
  let lat := pyOr el.lat el.center_lat
  let lon := pyOr el.lon el.center_lon
  match lat, lon with
  | some la, some lo =>
      if la ≠ 0 ∧ lo ≠ 0 then some ⟨name, la, lo⟩ else Option.none
  | _, _ => Option.none

/-- The parsing loop over all response elements (lines 35-41). -/
def parseHospitals (els : List OsmElement) : List Facility :=
  els.filterMap parseHospital

/-- A snapped facility row (the dict appended on lines 66-71). -/
structure SnappedFacility where
  name : String
  latitude : ℚ
  longitude : ℚ
  node_id : Nat
deriving DecidableEq, Repr

/-- The warning printed on line 73. -/
def snapWarnMsg (f : Facility) (n : Nat) : String :=
  "Warning: Hospital '" ++ f.name ++ "' maps to node " ++ toString n ++ " outside graph."

/-- The error message printed on line 75. -/
def snapErrMsg (f : Facility) (e : String) : String :=
  "Error snapping hospital '" ++ f.name ++ "': " ++ e

/-- Lines 60-75: for each facility, try the nearest-node lookup; keep the
row only when the returned node is in the graph's node set, print one
warning otherwise; catch any per-facility exception, print it, and keep
going.  Returns the snapped rows and the printed log, in loop order. -/
def snapHospitals (snap : Facility → Except String Nat) (nodes : List Nat) :
    List Facility → List SnappedFacility × List String
  | [] => ([], [])
  | f :: rest =>
      let tail := snapHospitals snap nodes rest
      match snap f with
      | .ok n =>
          if n ∈ nodes then
            (⟨f.name, f.latitude, f.longitude, n⟩ :: tail.1, tail.2)
          else
            (tail.1, snapWarnMsg f n :: tail.2)
      | .error e => (tail.1, snapErrMsg f e :: tail.2)

/-- The line printed for a valid snapped facility (line 91). -/
def validMsg (r : SnappedFacility) : String :=
  "Hospital '" ++ r.name ++ "' mapped to node " ++ toString r.node_id ++ " (valid)."

/-- The line printed for an invalid snapped facility (line 93). -/
def invalidMsg (r : SnappedFacility) : String :=
  "Warning: Hospital '" ++ r.name ++ "' node " ++ toString r.node_id ++ " not in graph."

/-- Lines 87-93: the connectivity validation loop only prints one line per
snapped facility. -/
def validateConnectivity (nodes : List Nat) (recs : List SnappedFacility) :
    List String :=
  recs.map (fun r => if r.node_id ∈ nodes then validMsg r else invalidMsg r)

/-- The validation step as it sits in the script: it reads the snapped
rows and produces a report; the rows flow on unchanged. -/
def validateAndReport (nodes : List Nat) (recs : List SnappedFacility) :
    List SnappedFacility × List String :=
  (recs, validateConnectivity nodes recs)

/-- The snapped rows are exactly the facilities whose lookup succeeds with a
node of the graph. -/
lemma snapHospitals_fst_eq (snap : Facility → Except String Nat)
    (nodes : List Nat) (facs : List Facility) :
    (snapHospitals snap nodes facs).1 = facs.filterMap (fun f =>
      match snap f with
      | .ok n => if n ∈ nodes then
          some (SnappedFacility.mk f.name f.latitude f.longitude n)
        else Option.none
      | .error _ => Option.none) := by
  induction facs with
  | nil => rfl
  | cons f rest ih =>
      unfold snapHospitals
      rw [List.filterMap_cons]
      cases hs : snap f with
      | ok n =>
          by_cases hn : n ∈ nodes
          · simp only [hs, if_pos hn]
            rw [ih]
          · simp only [hs, if_neg hn]
            rw [ih]
      | error e =>
          simp only [hs]
          rw [ih]

/-- The printed log has exactly one warning per out-of-graph snap and one
error line per caught exception, in loop order. -/
lemma snapHospitals_snd_eq (snap : Facility → Except String Nat)
    (nodes : List Nat) (facs : List Facility) :
    (snapHospitals snap nodes facs).2 = facs.filterMap (fun f =>
      match snap f with
      | .ok n => if n ∈ nodes then Option.none else some (snapWarnMsg f n)
      | .error e => some (snapErrMsg f e)) := by
  induction facs with
  | nil => rfl
  | cons f rest ih =>
      unfold snapHospitals
      rw [List.filterMap_cons]
      cases hs : snap f with
      | ok n =>
          by_cases hn : n ∈ nodes
          · simp only [hs, if_pos hn]
            rw [ih]
          · simp only [hs, if_neg hn]
            rw [ih]
      | error e =>
          simp only [hs]
          rw [ih]

/-- C8: every facility of the batch is processed: one whose nearest-node
lookup returns a node outside the graph contributes no snapped row and
exactly one warning line, one whose lookup raises contributes no row and
exactly one error line, and either way the remaining facilities are still
processed — the rows and the log are pointwise images of the whole input
list. -/
theorem C8_snapper_skips_and_continues (snap : Facility → Except String Nat)
    (nodes : List Nat) (facs : List Facility) :
    (snapHospitals snap nodes facs).1 = facs.filterMap (fun f =>
      match snap f with
      | .ok n => if n ∈ nodes then
          some (SnappedFacility.mk f.name f.latitude f.longitude n)
        else Option.none
      | .error _ => Option.none) ∧
    (snapHospitals snap nodes facs).2 = facs.filterMap (fun f =>
      match snap f with
      | .ok n => if n ∈ nodes then Option.none else some (snapWarnMsg f n)
      | .error e => some (snapErrMsg f e)) :=
  ⟨snapHospitals_fst_eq snap nodes facs, snapHospitals_snd_eq snap nodes facs⟩

/-- C9: every snapped row's `node_id` is a node of the graph, and the
connectivity validator is purely diagnostic: the rows pass through it
unchanged and it only emits one valid/invalid line per row. -/
theorem C9_snapped_rows_valid_and_validator_diagnostic :
    (∀ (snap : Facility → Except String Nat) (nodes : List Nat)
      (facs : List Facility),
      ∀ r ∈ (snapHospitals snap nodes facs).1, r.node_id ∈ nodes) ∧
    (∀ (nodes : List Nat) (recs : List SnappedFacility),
      (validateAndReport nodes recs).1 = recs) ∧
    (∀ (nodes : List Nat) (recs : List SnappedFacility),
      validateConnectivity nodes recs =
        recs.map (fun r => if r.node_id ∈ nodes then validMsg r else invalidMsg r)) := by
  refine ⟨?_, fun _ _ => rfl, fun _ _ => rfl⟩
  intro snap nodes facs r hr
  rw [snapHospitals_fst_eq] at hr
  obtain ⟨f, _, hf⟩ := List.mem_filterMap.mp hr
  cases hs : snap f with
  | ok n =>
      rw [hs] at hf
      dsimp only at hf
      by_cases hn : n ∈ nodes
      · rw [if_pos hn] at hf
        cases (Option.some.injEq _ _).mp hf
        exact hn
      · rw [if_neg hn] at hf
        exact absurd hf (by simp)
  | error e =>
      rw [hs] at hf
      exact absurd hf (by simp)

/-- Elements for the C10 witness. -/
def elZeroLat : OsmElement :=
  { name := some "Zero", lat := some 0, lon := some 121
    center_lat := Option.none, center_lon := Option.none }

/-- A well-formed element for the C10 witness. -/
def elGood : OsmElement :=
  { name := some "Good", lat := some 14, lon := some 121
    center_lat := Option.none, center_lon := Option.none }

/-- C10: an element whose effective latitude or longitude (node coordinate,
else `center` coordinate, via Python `or`) is missing or exactly 0 is
silently dropped by the parser, hence absent from the facility list and all
downstream outputs; every record produced has both coordinates present and
nonzero. -/
theorem C10_zero_or_missing_coordinates_excluded :
    (∀ el : OsmElement,
      (pyOr el.lat el.center_lat = Option.none ∨
       pyOr el.lat el.center_lat = some 0 ∨
       pyOr el.lon el.center_lon = Option.none ∨
       pyOr el.lon el.center_lon = some 0) →
      parseHospital el = Option.none) ∧
    (∀ (el : OsmElement) (f : Facility), parseHospital el = some f →
      f.latitude ≠ 0 ∧ f.longitude ≠ 0) ∧
    (∀ (el : OsmElement) (els : List OsmElement),
      parseHospital el = Option.none →
      parseHospitals (el :: els) = parseHospitals els) := by
  refine ⟨?_, ?_, ?_⟩
  · intro el h
    unfold parseHospital
    cases hla : pyOr el.lat el.center_lat with
    | none => rfl
    | some la =>
        cases hlo : pyOr el.lon el.center_lon with
        | none => rfl
        | some lo =>
            have hz : la = 0 ∨ lo = 0 := by
              rw [hla, hlo] at h
              rcases h with h | h | h | h
              · exact absurd h (by simp)
              · exact Or.inl ((Option.some.injEq _ _).mp h)
              · exact absurd h (by simp)
              · exact Or.inr ((Option.some.injEq _ _).mp h)
            dsimp only
            rw [if_neg]
            rintro ⟨h1, h2⟩
            rcases hz with hz | hz
            · exact h1 hz
            · exact h2 hz
  · intro el f h
    unfold parseHospital at h
    cases hla : pyOr el.lat el.center_lat with
    | none => rw [hla] at h; exact absurd h (by simp)
    | some la =>
        cases hlo : pyOr el.lon el.center_lon with
        | none => rw [hla, hlo] at h; exact absurd h (by simp)
        | some lo =>
            rw [hla, hlo] at h
            dsimp only at h
            by_cases hc : la ≠ 0 ∧ lo ≠ 0
            · rw [if_pos hc] at h
              cases (Option.some.injEq _ _).mp h
              exact hc
            · rw [if_neg hc] at h
              exact absurd h (by simp)
  · intro el els h
    unfold parseHospitals
    rw [List.filterMap_cons, h]

/-- Witness for C10: the element sitting exactly on the equator is dropped;
the well-formed element yields a record with nonzero coordinates. -/
theorem C10_zero_or_missing_coordinates_excluded_witness :
    parseHospital elZeroLat = Option.none ∧
    ((14 : ℚ) ≠ 0 ∧ (121 : ℚ) ≠ 0) := by
  constructor
  · exact C10_zero_or_missing_coordinates_excluded.1 elZeroLat
      (Or.inl (by decide))
  · exact C10_zero_or_missing_coordinates_excluded.2.1 elGood ⟨"Good", 14, 121⟩
      (by decide)

end EMS
